import Mathlib

/-!
Verification of the KML/KMZ extraction core (`kml_parser.py`) of the
plantation_mapper repository, as a shallow embedding in Lean 4.

Conventions of the embedding:
* Python strings are Lean `String`s; character-level operations of the source
  (`str.split`, `str.strip`, `str.lower`, `str.endswith`, `str.replace`) are
  re-implemented structurally over `List Char` so that every definition
  evaluates inside the kernel.
* Python `float` values are modelled as exact rationals (`Rat`); the stdlib
  `float()` conversion is modelled by `parseFloat?`, an exact parser for the
  decimal / scientific-literal fragment of `float()` (the fragment exercised
  by coordinate tokens; `inf`/`nan`/underscore/hex forms are not modelled).
* An XML element tree (the result of `xml.etree.ElementTree.fromstring`) is
  modelled by `XElem` / `XForest` (first-child / next-sibling encoding, which
  keeps all recursion structural); `Element.iter()` is `XElem.iter`.
* Bytes are `List Nat`; UTF-8 decoding (`bytes.decode('utf-8', ...)`) is
  modelled by `utf8DecodeStrict` (errors='strict', the default of `open`) and
  `utf8DecodeReplace` (errors='replace'); the universal-newline translation of
  text-mode reads is modelled by `univNewlines`.
* Exceptions are modelled by `Except` / `Option` results.
-/

/-! ## Character and list-of-character helpers (Python string operations) -/

/-- Whitespace characters recognised by Python `str.split()` / `str.strip()`
(ASCII fragment: space, tab, newline, carriage return, vertical tab, form
feed). -/
def pyIsSpace (c : Char) : Bool :=
  c == ' ' || c == Char.ofNat 9 || c == Char.ofNat 10 ||
  c == Char.ofNat 13 || c == Char.ofNat 11 || c == Char.ofNat 12

/-- Python `str.strip()` on a character list: drop whitespace from both
ends. -/
def pyStrip (l : List Char) : List Char :=
  ((l.dropWhile pyIsSpace).reverse.dropWhile pyIsSpace).reverse

/-- Python `str.replace('\n', ' ')`: a single-character replacement is a map. -/
def nlToSpace (c : Char) : Char :=
  if c == Char.ofNat 10 then ' ' else c

/-- Accumulator worker for `splitOnComma`; `cur` holds the current component
reversed. -/
def splitOnCommaAux : List Char → List Char → List (List Char)
  | cur, [] => [cur.reverse]
  | cur, c :: cs =>
    if c == ',' then cur.reverse :: splitOnCommaAux [] cs
    else splitOnCommaAux (c :: cur) cs

/-- Python `str.split(',')`: split at every comma, keeping empty components. -/
def splitOnComma (l : List Char) : List (List Char) :=
  splitOnCommaAux [] l

/-- Accumulator worker for `wsTokens`; `cur` holds the current token
reversed. -/
def wsTokensAux : List Char → List Char → List (List Char)
  | cur, [] => if cur == [] then [] else [cur.reverse]
  | cur, c :: cs =>
    if pyIsSpace c then
      if cur == [] then wsTokensAux [] cs else cur.reverse :: wsTokensAux [] cs
    else wsTokensAux (c :: cur) cs

/-- Python `str.split()` (no argument): split on runs of whitespace, dropping
empty tokens. -/
def wsTokens (l : List Char) : List (List Char) :=
  wsTokensAux [] l

/-- Lowercase an ASCII letter (Python `str.lower()`, ASCII fragment — the
filename extensions compared in the source are ASCII). -/
def asciiLower (c : Char) : Char :=
  if 'A' ≤ c && c ≤ 'Z' then Char.ofNat (c.toNat + 32) else c

/-- Python `str.lower()` on a whole string (ASCII fragment). -/
def lowerStr (s : String) : String :=
  String.mk (s.data.map asciiLower)

/-- Python `str.endswith(suffix)`. -/
def pyEndsWith (s suffix : String) : Bool :=
  suffix.data.isSuffixOf s.data

/-! ## Python `float()` (decimal fragment), modelled exactly over `Rat` -/

/-- Decimal digit test. -/
def isDigitCh (c : Char) : Bool :=
  '0' ≤ c && c ≤ '9'

/-- Numeric value of a digit list, most significant first. -/
def digitsVal (l : List Char) : Nat :=
  l.foldl (fun acc c => acc * 10 + (c.toNat - 48)) 0

/-- Exact value of a parsed decimal literal: sign, integral digits, fractional
digits, exponent. Built with a single `mkRat` so that concrete values reduce
in the kernel. -/
def decToRat (sgn : Int) (ip fp : List Char) (ex : Int) : Rat :=
  let e : Int := ex - (fp.length : Int)
  let m : Int := sgn * (digitsVal (ip ++ fp) : Int)
  if 0 ≤ e then mkRat (m * (10 : Int) ^ e.toNat) 1
  else mkRat m ((10 : Nat) ^ (-e).toNat)

/-- Python `float(token)` on the decimal / scientific fragment: optional sign,
digits with optional fractional part, optional exponent; at least one digit is
required in the mantissa and, when an exponent marker is present, in the
exponent; any trailing garbage fails. Returns the exact rational value.
(`inf`, `nan`, underscores and surrounding whitespace are outside the
fragment used by coordinate tokens and are not modelled.) -/
def parseFloat? (l : List Char) : Option Rat :=
  let (sgn, l1) : Int × List Char :=
    match l with
    | '+' :: r => (1, r)
    | '-' :: r => (-1, r)
    | r => (1, r)
  let ip := l1.takeWhile isDigitCh
  let r1 := l1.dropWhile isDigitCh
  let (fp, r2) : List Char × List Char :=
    match r1 with
    | '.' :: r => (r.takeWhile isDigitCh, r.dropWhile isDigitCh)
    | r => ([], r)
  if ip == [] && fp == [] then none
  else
    match r2 with
    | [] => some (decToRat sgn ip fp 0)
    | c :: r3 =>
      if c == 'e' || c == 'E' then
        let (esgn, r4) : Int × List Char :=
          match r3 with
          | '+' :: r => (1, r)
          | '-' :: r => (-1, r)
          | r => (1, r)
        let ed := r4.takeWhile isDigitCh
        if ed == [] then none
        else if r4.dropWhile isDigitCh == [] then
          some (decToRat sgn ip fp (esgn * (digitsVal ed : Int)))
        else none
      else none

/-! ## Coordinate-text parsing (`parse_coordinates_text`, source lines 52-75) -/

/-- A parsed coordinate: `(longitude, latitude, optional altitude)`. -/
abbrev CoordT := Rat × Rat × Option Rat

/-- Body of the token loop of `parse_coordinates_text` (source lines 64-74):
split the token on commas; require at least two components; `float` the first
two; the third, when present and non-empty, is the altitude; a `float` failure
anywhere drops the whole token. Returns the (zero or one) coordinates the
token contributes. -/
def parseToken (tok : List Char) : List CoordT :=
  match splitOnComma tok with
  | c0 :: c1 :: rest =>
    match parseFloat? c0, parseFloat? c1 with
    | some lon, some lat =>
      match rest with
      | [] => [(lon, lat, none)]
      | c2 :: _ =>
        if c2 == [] then [(lon, lat, none)]
        else
          match parseFloat? c2 with
          | some alt => [(lon, lat, some alt)]
          | none => []
    | _, _ => []
  | _ => []

/-- The `parse_coordinates_text` function (source lines 52-75): `None` text
gives no coordinates; otherwise strip, return nothing when empty, replace
newlines by spaces, split on whitespace and parse each token. -/
def parse_coordinates_text (text : Option String) : List CoordT :=
  match text with
  | none => []
  | some s =>
    let t := pyStrip s.data
    if t == [] then []
    else (wsTokens (t.map nlToSpace)).flatMap parseToken

/-! ## XML element trees (the result of `xml.etree.ElementTree.fromstring`) -/

/-- Forest of XML elements in first-child / next-sibling encoding: `node tag
text children next` is an element with qualified tag `tag` (ElementTree spells
a namespaced tag `\x7buri\x7dlocal`), optional leading text `text`, child
forest `children`, followed by its right siblings `next`. The encoding keeps
every recursion structural. -/
inductive XForest where
  | nil : XForest
  | node (tag : String) (text : Option String) (children : XForest) (next : XForest) : XForest
deriving Repr, DecidableEq

/-- A single XML element: qualified tag, optional text, children. -/
structure XElem where
  tag : String
  text : Option String
  children : XForest
deriving Repr, DecidableEq

/-- All elements of a forest in document (depth-first, pre-) order. -/
def XForest.iter : XForest → List XElem
  | .nil => []
  | .node t x cs nx => ⟨t, x, cs⟩ :: cs.iter ++ nx.iter

/-- Python `Element.iter()`: the element itself followed by all descendants in
document (depth-first) order. -/
def XElem.iter (e : XElem) : List XElem :=
  e :: e.children.iter

/-- Build a forest from a list of elements (used to write concrete input
documents). -/
def forestOf : List XElem → XForest
  | [] => .nil
  | e :: es => .node e.tag e.text e.children (forestOf es)

/-- Element constructor used for concrete input documents. -/
def el (t : String) (x : Option String) (cs : List XElem) : XElem :=
  ⟨t, x, forestOf cs⟩

/-! ## Local-name matching (source lines 30-49) -/

/-- The closing-brace character. -/
def rbraceCh : Char := Char.ofNat 125

/-- The opening-brace character. -/
def lbraceCh : Char := Char.ofNat 123

/-- Characters after the first closing brace, or `none` when there is no
closing brace. -/
def afterBrace? : List Char → Option (List Char)
  | [] => none
  | c :: cs => if c == rbraceCh then some cs else afterBrace? cs

/-- The `strip_namespace` function (source lines 30-32):
`tag.split(closing-brace, 1)[-1] if closing-brace in tag else tag`, i.e. the
suffix after the first closing brace when one exists, the tag unchanged
otherwise. -/
def strip_namespace (tag : String) : String :=
  match afterBrace? tag.data with
  | some rest => String.mk rest
  | none => tag

/-- The `find_first_local` function (source lines 35-40): first element of
`root.iter()` (depth-first, the element itself included) whose local name is
`local_name`. -/
def find_first_local (root : XElem) (local_name : String) : Option XElem :=
  root.iter.find? (fun e => strip_namespace e.tag == local_name)

/-- The `findall_local` function (source lines 43-49): all elements of
`root.iter()` whose local name is `local_name`, in document order. -/
def findall_local (root : XElem) (local_name : String) : List XElem :=
  root.iter.filter (fun e => strip_namespace e.tag == local_name)

/-! ## Geometry extraction (`geometry_from_placemark`, source lines 78-146) -/

/-- A coordinate as stored in a geometry: the source stores `(lon, lat)` when
the altitude is absent and `(lon, lat, alt)` when present. -/
inductive PCoord where
  | xy (lon lat : Rat) : PCoord
  | xyz (lon lat alt : Rat) : PCoord
deriving Repr, DecidableEq

/-- The coordinate-tuple construction `(lon, lat) if alt is None else
(lon, lat, alt)` used throughout the source. -/
def mkPCoord : CoordT → PCoord
  | (lon, lat, none) => .xy lon lat
  | (lon, lat, some alt) => .xyz lon lat alt

/-- A geometry record: `Point`, `LineString`, or `Polygon` with outer ring and
holes (the `type`-tagged dicts of the source). -/
inductive Geometry where
  | point (c : PCoord) : Geometry
  | lineString (cs : List PCoord) : Geometry
  | polygon (outer : List PCoord) (holes : List (List PCoord)) : Geometry
deriving Repr, DecidableEq

/-- Kind tag of a geometry (0 = Point, 1 = LineString, 2 = Polygon), in the
order the source's extraction loops run. -/
def geomKind : Geometry → Nat
  | .point _ => 0
  | .lineString _ => 1
  | .polygon _ _ => 2

/-- Parsed coordinates of an element: parse the text of its first
`coordinates` descendant (`None` when there is no such descendant) — the
pattern `coords_el.text if coords_el is not None else None` of the source. -/
def coordsOfEl (e : XElem) : List CoordT :=
  match find_first_local e "coordinates" with
  | some ce => parse_coordinates_text ce.text
  | none => parse_coordinates_text none

/-- Body of the POINTS loop (source lines 86-91): emit a Point from the first
parsed coordinate, or nothing when no coordinate parsed. -/
def pointGeom? (pe : XElem) : Option Geometry :=
  match coordsOfEl pe with
  | [] => none
  | c :: _ => some (.point (mkPCoord c))

/-- Body of the LINESTRINGS loop (source lines 94-100): emit a LineString with
all parsed coordinates, or nothing when none parsed. -/
def lineGeom? (le : XElem) : Option Geometry :=
  match coordsOfEl le with
  | [] => none
  | c :: cs => some (.lineString ((c :: cs).map mkPCoord))

/-- Outer boundary via the explicit `outerBoundaryIs` path (source lines
108-115): first `outerBoundaryIs` descendant, its first `LinearRing`
descendant, that ring's parsed coordinates (empty when any step fails). -/
def outerFromBoundary (pe : XElem) : List PCoord :=
  match find_first_local pe "outerBoundaryIs" with
  | none => []
  | some ob =>
    match find_first_local ob "LinearRing" with
    | none => []
    | some lr =>
      match coordsOfEl lr with
      | [] => []
      | c :: cs => (c :: cs).map mkPCoord

/-- Hole contributed by one `innerBoundaryIs` wrapper (source lines 118-124):
its first `LinearRing` descendant's parsed coordinates, when non-empty. -/
def innerHole? (ib : XElem) : Option (List PCoord) :=
  match find_first_local ib "LinearRing" with
  | none => none
  | some lr =>
    match coordsOfEl lr with
    | [] => none
    | c :: cs => some ((c :: cs).map mkPCoord)

/-- Hole contributed by a bare `LinearRing` in the fallback scan (source lines
135-139): its parsed coordinates, when non-empty. -/
def lrHole? (lr : XElem) : Option (List PCoord) :=
  match coordsOfEl lr with
  | [] => none
  | c :: cs => some ((c :: cs).map mkPCoord)

/-- The fallback branch (source lines 127-139), entered only when the
`outerBoundaryIs` path produced no coordinates: scan all `LinearRing`
descendants of the polygon; the first (when it parses non-empty) becomes the
outer ring, every subsequent one with non-empty parsed coordinates is appended
to the holes collected so far. -/
def fallbackParts (pe : XElem) (holes0 : List (List PCoord)) :
    List PCoord × List (List PCoord) :=
  match findall_local pe "LinearRing" with
  | [] => ([], holes0)
  | lr0 :: rest =>
    (match coordsOfEl lr0 with
     | [] => []
     | c :: cs => (c :: cs).map mkPCoord,
     holes0 ++ rest.filterMap lrHole?)

/-- Outer ring and holes of one `Polygon` element (source lines 103-139):
explicit `outerBoundaryIs` / `innerBoundaryIs` passes first, bare-`LinearRing`
fallback only when the explicit outer pass found nothing. -/
def polygonParts (pe : XElem) : List PCoord × List (List PCoord) :=
  match outerFromBoundary pe with
  | [] => fallbackParts pe ((findall_local pe "innerBoundaryIs").filterMap innerHole?)
  | c :: cs => (c :: cs, (findall_local pe "innerBoundaryIs").filterMap innerHole?)

/-- Body of the POLYGONS loop (source lines 103-142): emit a Polygon exactly
when the resolved outer ring is non-empty. -/
def polygonGeom? (pe : XElem) : Option Geometry :=
  match polygonParts pe with
  | ([], _) => none
  | (c :: cs, holes) => some (.polygon (c :: cs) holes)

/-- The `geometry_from_placemark` function (source lines 78-146): all Point
geometries (in document order of the `Point` elements), then all LineString
geometries, then all Polygon geometries. -/
def geometry_from_placemark (pm : XElem) : List Geometry :=
  (findall_local pm "Point").filterMap pointGeom?
    ++ (findall_local pm "LineString").filterMap lineGeom?
    ++ (findall_local pm "Polygon").filterMap polygonGeom?

/-! ## Placemark records (`extract_placemarks`, source lines 149-162) -/

/-- A placemark record: optional name, optional description, geometries. -/
structure Placemark where
  name : Option String
  description : Option String
  geometries : List Geometry
deriving Repr, DecidableEq

/-- Name / description field of a placemark (source lines 156-159):
`el.text.strip() if (el is not None and el.text) else None` — the Python
truthiness test rejects a missing element, a `None` text and an empty text,
and otherwise keeps the stripped text (which may be empty when the text was
whitespace only). -/
def firstLocalText (pm : XElem) (local_name : String) : Option String :=
  match find_first_local pm local_name with
  | none => none
  | some e =>
    match e.text with
    | none => none
    | some t => if t.data == [] then none else some (String.mk (pyStrip t.data))

/-- The record built for one placemark element (source lines 156-161). -/
def placemarkRecord (pm : XElem) : Placemark :=
  { name := firstLocalText pm "name"
    description := firstLocalText pm "description"
    geometries := geometry_from_placemark pm }

/-- The `extract_placemarks` function (source lines 149-162) applied to an
already-parsed document tree: one record per `Placemark` element, in document
order. -/
def extract_placemarks (root : XElem) : List Placemark :=
  (findall_local root "Placemark").map placemarkRecord

/-- Error raised by `xml.etree.ElementTree.fromstring` on malformed XML. -/
structure XmlParseError where
  message : String
deriving Repr, DecidableEq

/-- The `extract_placemarks` function as called on raw text (source lines
149-153): the text is first parsed by the stdlib `ET.fromstring`, whose parse
error is not caught anywhere in `extract_placemarks` and therefore propagates;
records are only produced from a successful parse. The stdlib parser itself is
abstracted as the `Except XmlParseError XElem` argument. -/
def extract_placemarks_from_text (parsed : Except XmlParseError XElem) :
    Except XmlParseError (List Placemark) :=
  match parsed with
  | .error e => .error e
  | .ok root => .ok (extract_placemarks root)

/-! ## UTF-8 decoding and the container reader (`read_kml_from_path`,
source lines 15-27) -/

/-- Continuation-byte test (`0x80 ≤ b < 0xC0`). -/
def isContByte (b : Nat) : Bool :=
  128 ≤ b && b < 192

/-- Strict UTF-8 decoding state machine. The pending state `(need, val, lo)`
holds the number of continuation bytes still expected, the code point
accumulated so far and the smallest code point the sequence is allowed to
encode (overlong rejection); `acc` holds the output reversed. Surrogates and
code points above `0x10FFFF` are rejected. -/
def utf8DecodeStrictAux : Option (Nat × Nat × Nat) → List Char → List Nat → Option (List Char)
  | none, acc, [] => some acc.reverse
  | some _, _, [] => none
  | none, acc, b :: bs =>
    if b < 128 then utf8DecodeStrictAux none (Char.ofNat b :: acc) bs
    else if b < 194 then none
    else if b < 224 then utf8DecodeStrictAux (some (1, b - 192, 128)) acc bs
    else if b < 240 then utf8DecodeStrictAux (some (2, b - 224, 2048)) acc bs
    else if b < 245 then utf8DecodeStrictAux (some (3, b - 240, 65536)) acc bs
    else none
  | some (need, val, lo), acc, b :: bs =>
    if isContByte b then
      let v := val * 64 + (b - 128)
      if need = 1 then
        if v < lo || (55296 ≤ v && v < 57344) || 1114111 < v then none
        else utf8DecodeStrictAux none (Char.ofNat v :: acc) bs
      else utf8DecodeStrictAux (some (need - 1, v, lo)) acc bs
    else none

/-- Python `bytes.decode('utf-8')` with the default `errors='strict'` policy
(what `open(path, 'r', encoding='utf-8')` uses, source line 26): `none` models
the `UnicodeDecodeError` raised on invalid byte sequences. -/
def utf8DecodeStrict (bs : List Nat) : Option String :=
  (utf8DecodeStrictAux none [] bs).map String.mk

/-- The replacement character `U+FFFD`. -/
def repCh : Char := Char.ofNat 65533

/-- Replacing UTF-8 decoding state machine: same automaton as
`utf8DecodeStrictAux`, but every error emits `U+FFFD` and continues; a byte
that aborts a pending multi-byte sequence is re-processed as a fresh lead byte
(the re-processing is inlined to keep the recursion structural). The exact
number of `U+FFFD` per malformed sequence approximates CPython's policy; no
claim depends on that count. -/
def utf8DecodeReplaceAux : Option (Nat × Nat × Nat) → List Char → List Nat → List Char
  | none, acc, [] => acc.reverse
  | some _, acc, [] => (repCh :: acc).reverse
  | none, acc, b :: bs =>
    if b < 128 then utf8DecodeReplaceAux none (Char.ofNat b :: acc) bs
    else if b < 194 then utf8DecodeReplaceAux none (repCh :: acc) bs
    else if b < 224 then utf8DecodeReplaceAux (some (1, b - 192, 128)) acc bs
    else if b < 240 then utf8DecodeReplaceAux (some (2, b - 224, 2048)) acc bs
    else if b < 245 then utf8DecodeReplaceAux (some (3, b - 240, 65536)) acc bs
    else utf8DecodeReplaceAux none (repCh :: acc) bs
  | some (need, val, lo), acc, b :: bs =>
    if isContByte b then
      let v := val * 64 + (b - 128)
      if need = 1 then
        if v < lo || (55296 ≤ v && v < 57344) || 1114111 < v then
          utf8DecodeReplaceAux none (repCh :: acc) bs
        else utf8DecodeReplaceAux none (Char.ofNat v :: acc) bs
      else utf8DecodeReplaceAux (some (need - 1, v, lo)) acc bs
    else
      if b < 128 then utf8DecodeReplaceAux none (Char.ofNat b :: repCh :: acc) bs
      else if b < 194 then utf8DecodeReplaceAux none (repCh :: repCh :: acc) bs
      else if b < 224 then utf8DecodeReplaceAux (some (1, b - 192, 128)) (repCh :: acc) bs
      else if b < 240 then utf8DecodeReplaceAux (some (2, b - 224, 2048)) (repCh :: acc) bs
      else if b < 245 then utf8DecodeReplaceAux (some (3, b - 240, 65536)) (repCh :: acc) bs
      else utf8DecodeReplaceAux none (repCh :: repCh :: acc) bs

/-- Python `bytes.decode('utf-8', errors='replace')` (source line 24): total,
never fails. -/
def utf8DecodeReplace (bs : List Nat) : String :=
  String.mk (utf8DecodeReplaceAux none [] bs)

/-- Error outcomes of `read_kml_from_path`: `emptyArchive` models the
`ValueError("KMZ does not contain any .kml files")` of source line 21,
`decodeError` the `UnicodeDecodeError` of the strict text-mode read of source
lines 26-27. -/
inductive ReadError where
  | emptyArchive : ReadError
  | decodeError : ReadError
deriving Repr, DecidableEq

/-- The file at a path, as `read_kml_from_path` can observe it: its name, its
zip directory (entry names with their decompressed bytes, in archive order —
`zipfile` is stdlib and is abstracted to this listing) and its raw bytes. -/
structure PathContent where
  path : String
  entries : List (String × List Nat)
  raw : List Nat

/-- Universal-newline translation performed by Python text-mode reads with the
default `newline=None` (source line 26): after decoding, `\r\n` and a lone
`\r` both become `\n`. The archive branch (source lines 22-24) decodes bytes
directly and performs no such translation. -/
def univNewlines : List Char → List Char
  | [] => []
  | c :: cs =>
    if c == Char.ofNat 13 then
      match cs with
      | [] => [Char.ofNat 10]
      | d :: rest =>
        if d == Char.ofNat 10 then Char.ofNat 10 :: univNewlines rest
        else Char.ofNat 10 :: univNewlines (d :: rest)
    else c :: univNewlines cs

/-- The `read_kml_from_path` function (source lines 15-27): when the path ends
in `.kmz` (case-insensitively), keep the entries whose names end in `.kml`
(case-insensitively), fail with the empty-archive error when there are none,
otherwise decode the first one's bytes as UTF-8 with `errors='replace'` (no
newline translation happens on this branch); for any other path, read the raw
bytes in text mode, i.e. decode them as strict UTF-8 (`errors='strict'`),
which fails on invalid sequences, and apply universal-newline translation to
the decoded text. -/
def read_kml_from_path (pc : PathContent) : Except ReadError String :=
  if pyEndsWith (lowerStr pc.path) ".kmz" then
    match pc.entries.filter (fun en => pyEndsWith (lowerStr en.1) ".kml") with
    | [] => .error .emptyArchive
    | en :: _ => .ok (utf8DecodeReplace en.2)
  else
    match utf8DecodeStrict pc.raw with
    | some s => .ok (String.mk (univNewlines s.data))
    | none => .error .decodeError

/-! ## Namespace wrapping (for the namespace-invariance claim)

ElementTree represents an element of a document with a default namespace
declaration by prefixing every tag with the namespace URI in braces. Wrapping
a document in a default namespace is therefore modelled by `XElem.addNs`. -/

/-- The qualified tag ElementTree produces for local tag `t` under namespace
URI `u`. -/
def nsTag (u t : String) : String :=
  String.mk (lbraceCh :: u.data ++ rbraceCh :: t.data)

/-- Qualify every tag of a forest with namespace URI `u`. -/
def XForest.addNs (u : String) : XForest → XForest
  | .nil => .nil
  | .node t x cs nx => .node (nsTag u t) x (cs.addNs u) (nx.addNs u)

/-- Qualify every tag of an element tree with namespace URI `u`: the document
re-parsed after being wrapped in `xmlns="u"`. -/
def XElem.addNs (u : String) (e : XElem) : XElem :=
  ⟨nsTag u e.tag, e.text, e.children.addNs u⟩

/-- A string with no closing brace (every unqualified XML tag and every
well-formed namespace URI is brace-free). -/
def braceFreeStr (s : String) : Bool :=
  s.data.all (fun c => c != rbraceCh)

/-- A tree all of whose tags are brace-free (any tree parsed from a document
without namespace declarations). -/
def braceFreeTree (e : XElem) : Bool :=
  e.iter.all (fun x => braceFreeStr x.tag)

/-! ## Concrete input documents used by the claim theorems -/

/-- A placemark whose subtree contains a `Polygon` element before a `Point`
element (document order). -/
def pmC1 : XElem :=
  el "Placemark" none
    [el "Polygon" none
      [el "outerBoundaryIs" none
        [el "LinearRing" none
          [el "coordinates" (some "0,0 1,0 1,1 0,0") []]]],
     el "Point" none [el "coordinates" (some "2,3") []]]

/-- A polygon with only an `outerBoundaryIs` and no `innerBoundaryIs`. -/
def peC4w : XElem :=
  el "Polygon" none
    [el "outerBoundaryIs" none
      [el "LinearRing" none
        [el "coordinates" (some "1,1 2,2 3,3") []]]]

/-- A document whose single placemark has a name element with
whitespace-only text. -/
def rootC5x : XElem :=
  el "kml" none [el "Placemark" none [el "name" (some "   ") []]]

/-- A placemark whose name element has text with surrounding whitespace. -/
def pmC5w : XElem :=
  el "Placemark" none [el "name" (some "  hi  ") []]

/-- The name element inside `pmC5w`. -/
def nameElC5 : XElem :=
  el "name" (some "  hi  ") []

/-- A namespace-free document with one placemark holding a point. -/
def docC6 : XElem :=
  el "kml" none
    [el "Placemark" none
      [el "name" (some "A") [],
       el "Point" none [el "coordinates" (some "77.5,12.9") []]]]

/-- The standard KML namespace URI. -/
def uriC6 : String := "http://www.opengis.net/kml/2.2"

/-- A KMZ file whose archive holds a non-document entry followed by an
upper-case `.KML` entry whose bytes are ASCII `hi`. -/
def pcC8w : PathContent :=
  { path := "Sites.KMZ"
    entries := [("img.png", [137]), ("DOC.KML", [104, 105])]
    raw := [] }

/-- A KMZ file whose single entry `doc.kml` holds the ASCII bytes of
`a`, CR, LF, `b`. -/
def pcC8x : PathContent :=
  { path := "x.kmz"
    entries := [("doc.kml", [97, 13, 10, 98])]
    raw := [] }

/-- A raw (non-archive) file whose bytes are the single invalid UTF-8 byte
`0xFF`. -/
def pcC9x : PathContent :=
  { path := "a.kml", entries := [], raw := [255] }

/-- A raw (non-archive) file whose bytes are ASCII `hi`. -/
def pcC9w : PathContent :=
  { path := "b.kml", entries := [], raw := [104, 105] }

/-- A polygon with no `outerBoundaryIs` whose only `LinearRing` sits inside an
`innerBoundaryIs` wrapper. -/
def peC10x : XElem :=
  el "Polygon" none
    [el "innerBoundaryIs" none
      [el "LinearRing" none
        [el "coordinates" (some "5,5 6,5 6,6") []]]]

/-- The ring of `peC10x` as stored coordinates. -/
def ringC10 : List PCoord :=
  [.xy (mkRat 5 1) (mkRat 5 1), .xy (mkRat 6 1) (mkRat 5 1),
   .xy (mkRat 6 1) (mkRat 6 1)]

/-- A bare `LinearRing` (outer ring of `peC10w`). -/
def lr0w : XElem :=
  el "LinearRing" none [el "coordinates" (some "0,0 1,0 1,1") []]

/-- A `LinearRing` wrapped by `innerBoundaryIs` inside `peC10w`. -/
def lrw : XElem :=
  el "LinearRing" none [el "coordinates" (some "5,5 6,5 6,6") []]

/-- The `innerBoundaryIs` wrapper of `peC10w`. -/
def ibw : XElem :=
  el "innerBoundaryIs" none [lrw]

/-- A polygon with no `outerBoundaryIs`, a bare `LinearRing` first and an
`innerBoundaryIs`-wrapped `LinearRing` after it. -/
def peC10w : XElem :=
  el "Polygon" none [lr0w, ibw]

/-- Parsed coordinates of `lrw`. -/
def coordsC10v : List CoordT :=
  [(mkRat 5 1, mkRat 5 1, none), (mkRat 6 1, mkRat 5 1, none),
   (mkRat 6 1, mkRat 6 1, none)]

theorem braceFreeStr_iff {s : String} :
    braceFreeStr s = true ↔ ∀ c ∈ s.data, c ≠ rbraceCh := by
  simp [braceFreeStr, List.all_eq_true]

theorem afterBrace?_append {l1 : List Char} (l2 : List Char)
    (h : ∀ c ∈ l1, c ≠ rbraceCh) :
    afterBrace? (l1 ++ rbraceCh :: l2) = some l2 := by
  induction l1 with
  | nil => simp [afterBrace?]
  | cons c cs ih =>
    have hc : c ≠ rbraceCh := h c (List.mem_cons_self c cs)
    simp only [List.cons_append, afterBrace?, beq_iff_eq, hc, if_false,
      if_neg hc]
    exact ih (fun d hd => h d (List.mem_cons_of_mem c hd))

theorem afterBrace?_none {l : List Char} (h : ∀ c ∈ l, c ≠ rbraceCh) :
    afterBrace? l = none := by
  induction l with
  | nil => rfl
  | cons c cs ih =>
    have hc : c ≠ rbraceCh := h c (List.mem_cons_self c cs)
    simp only [afterBrace?, beq_iff_eq, if_neg hc]
    exact ih (fun d hd => h d (List.mem_cons_of_mem c hd))

theorem strip_namespace_nsTag {u : String} (t : String)
    (hu : braceFreeStr u = true) : strip_namespace (nsTag u t) = t := by
  have hu' := braceFreeStr_iff.mp hu
  have hl : ∀ c ∈ lbraceCh :: u.data, c ≠ rbraceCh := by
    intro c hc
    rcases List.mem_cons.mp hc with h | h
    · subst h; decide
    · exact hu' c h
  have h : afterBrace? ((lbraceCh :: u.data) ++ rbraceCh :: t.data) = some t.data :=
    afterBrace?_append t.data hl
  simp only [strip_namespace, nsTag]
  rw [h]

theorem strip_namespace_id {t : String} (ht : braceFreeStr t = true) :
    strip_namespace t = t := by
  have := afterBrace?_none (braceFreeStr_iff.mp ht)
  simp [strip_namespace, this]

theorem XForest.iter_addNs (u : String) (f : XForest) :
    (f.addNs u).iter = f.iter.map (XElem.addNs u) := by
  induction f with
  | nil => rfl
  | node t x cs nx ih1 ih2 =>
    simp [XForest.addNs, XForest.iter, ih1, ih2, XElem.addNs]

theorem elemIter_addNs (u : String) (e : XElem) :
    (XElem.addNs u e).iter = e.iter.map (XElem.addNs u) := by
  cases e with
  | mk t x cs => simp [XElem.addNs, XElem.iter, XForest.iter_addNs]

theorem XForest.mem_iter_trans : ∀ (f : XForest) {a b : XElem},
    a ∈ f.iter → b ∈ a.iter → b ∈ f.iter := by
  intro f
  induction f with
  | nil => intro a b ha _; simp [XForest.iter] at ha
  | node t x cs nx ih1 ih2 =>
    intro a b ha hb
    simp only [XForest.iter, List.mem_cons, List.mem_append] at ha ⊢
    rcases ha with (h | h) | h
    · subst h
      simp only [XElem.iter, List.mem_cons] at hb
      rcases hb with h2 | h2
      · exact Or.inl (Or.inl h2)
      · exact Or.inl (Or.inr h2)
    · exact Or.inl (Or.inr (ih1 h hb))
    · exact Or.inr (ih2 h hb)

theorem elemMem_iter_trans {e a b : XElem}
    (ha : a ∈ e.iter) (hb : b ∈ a.iter) : b ∈ e.iter := by
  simp only [XElem.iter, List.mem_cons] at ha ⊢
  rcases ha with h | h
  · subst h
    simp only [XElem.iter, List.mem_cons] at hb
    exact hb
  · exact Or.inr (XForest.mem_iter_trans e.children h hb)

theorem braceFreeTree_of_mem {e a : XElem} (he : braceFreeTree e = true)
    (ha : a ∈ e.iter) : braceFreeTree a = true := by
  simp only [braceFreeTree, List.all_eq_true] at he ⊢
  exact fun x hx => he x (elemMem_iter_trans ha hx)

theorem braceFreeStr_tag_of_mem {e a : XElem} (he : braceFreeTree e = true)
    (ha : a ∈ e.iter) : braceFreeStr a.tag = true := by
  simp only [braceFreeTree, List.all_eq_true] at he
  exact he a ha

theorem find?_congr_mem {α : Type} {p q : α → Bool} :
    ∀ {l : List α}, (∀ x ∈ l, p x = q x) → l.find? p = l.find? q
  | [], _ => rfl
  | a :: l, h => by
    have ha := h a (List.mem_cons_self a l)
    by_cases hp : p a = true
    · rw [List.find?_cons_of_pos _ hp, List.find?_cons_of_pos _ (ha ▸ hp)]
    · rw [List.find?_cons_of_neg _ hp,
        List.find?_cons_of_neg _ (by rw [← ha]; exact hp),
        find?_congr_mem (fun x hx => h x (List.mem_cons_of_mem a hx))]

theorem localPred_addNs {u : String} (nm : String) {y : XElem}
    (hu : braceFreeStr u = true) (hy : braceFreeStr y.tag = true) :
    (strip_namespace (XElem.addNs u y).tag == nm) = (strip_namespace y.tag == nm) := by
  have h1 : (XElem.addNs u y).tag = nsTag u y.tag := rfl
  rw [h1, strip_namespace_nsTag y.tag hu, strip_namespace_id hy]

theorem findall_local_addNs {u : String} (nm : String) {e : XElem}
    (hu : braceFreeStr u = true) (he : braceFreeTree e = true) :
    findall_local (XElem.addNs u e) nm = (findall_local e nm).map (XElem.addNs u) := by
  unfold findall_local
  rw [elemIter_addNs, List.filter_map]
  refine congrArg _ (List.filter_congr ?_)
  intro y hy
  exact localPred_addNs nm hu (braceFreeStr_tag_of_mem he hy)

theorem find_first_local_addNs {u : String} (nm : String) {e : XElem}
    (hu : braceFreeStr u = true) (he : braceFreeTree e = true) :
    find_first_local (XElem.addNs u e) nm = (find_first_local e nm).map (XElem.addNs u) := by
  unfold find_first_local
  rw [elemIter_addNs, List.find?_map]
  refine congrArg _ (find?_congr_mem ?_)
  intro y hy
  exact localPred_addNs nm hu (braceFreeStr_tag_of_mem he hy)

theorem braceFreeTree_of_find_first {e a : XElem} {nm : String}
    (he : braceFreeTree e = true) (h : find_first_local e nm = some a) :
    braceFreeTree a = true :=
  braceFreeTree_of_mem he (List.mem_of_find?_eq_some h)

theorem braceFreeTree_of_findall {e a : XElem} {nm : String}
    (he : braceFreeTree e = true) (h : a ∈ findall_local e nm) :
    braceFreeTree a = true :=
  braceFreeTree_of_mem he (List.mem_of_mem_filter h)

theorem coordsOfEl_addNs {u : String} {e : XElem}
    (hu : braceFreeStr u = true) (he : braceFreeTree e = true) :
    coordsOfEl (XElem.addNs u e) = coordsOfEl e := by
  unfold coordsOfEl
  rw [find_first_local_addNs _ hu he]
  cases find_first_local e "coordinates" with
  | none => rfl
  | some ce => rfl

theorem pointGeom?_addNs {u : String} {e : XElem}
    (hu : braceFreeStr u = true) (he : braceFreeTree e = true) :
    pointGeom? (XElem.addNs u e) = pointGeom? e := by
  unfold pointGeom?
  rw [coordsOfEl_addNs hu he]

theorem lineGeom?_addNs {u : String} {e : XElem}
    (hu : braceFreeStr u = true) (he : braceFreeTree e = true) :
    lineGeom? (XElem.addNs u e) = lineGeom? e := by
  unfold lineGeom?
  rw [coordsOfEl_addNs hu he]

theorem lrHole?_addNs {u : String} {e : XElem}
    (hu : braceFreeStr u = true) (he : braceFreeTree e = true) :
    lrHole? (XElem.addNs u e) = lrHole? e := by
  unfold lrHole?
  rw [coordsOfEl_addNs hu he]

theorem innerHole?_addNs {u : String} {ib : XElem}
    (hu : braceFreeStr u = true) (hb : braceFreeTree ib = true) :
    innerHole? (XElem.addNs u ib) = innerHole? ib := by
  unfold innerHole?
  rw [find_first_local_addNs _ hu hb]
  cases hlr : find_first_local ib "LinearRing" with
  | none => rfl
  | some lr =>
    simp only [Option.map_some']
    rw [coordsOfEl_addNs hu (braceFreeTree_of_find_first hb hlr)]

theorem outerFromBoundary_addNs {u : String} {pe : XElem}
    (hu : braceFreeStr u = true) (hp : braceFreeTree pe = true) :
    outerFromBoundary (XElem.addNs u pe) = outerFromBoundary pe := by
  unfold outerFromBoundary
  rw [find_first_local_addNs _ hu hp]
  cases hob : find_first_local pe "outerBoundaryIs" with
  | none => rfl
  | some ob =>
    have hb := braceFreeTree_of_find_first hp hob
    simp only [Option.map_some']
    rw [find_first_local_addNs _ hu hb]
    cases hlr : find_first_local ob "LinearRing" with
    | none => rfl
    | some lr =>
      simp only [Option.map_some']
      rw [coordsOfEl_addNs hu (braceFreeTree_of_find_first hb hlr)]

theorem innerHoles_addNs {u : String} {pe : XElem}
    (hu : braceFreeStr u = true) (hp : braceFreeTree pe = true) :
    (findall_local (XElem.addNs u pe) "innerBoundaryIs").filterMap innerHole?
      = (findall_local pe "innerBoundaryIs").filterMap innerHole? := by
  rw [findall_local_addNs _ hu hp, List.filterMap_map]
  refine List.filterMap_congr ?_
  intro ib hib
  exact innerHole?_addNs hu (braceFreeTree_of_findall hp hib)

theorem fallbackParts_addNs {u : String} {pe : XElem} (holes0 : List (List PCoord))
    (hu : braceFreeStr u = true) (hp : braceFreeTree pe = true) :
    fallbackParts (XElem.addNs u pe) holes0 = fallbackParts pe holes0 := by
  unfold fallbackParts
  rw [findall_local_addNs _ hu hp]
  cases hlrs : findall_local pe "LinearRing" with
  | nil => rfl
  | cons lr0 rest =>
    simp only [List.map_cons]
    have h0 : braceFreeTree lr0 = true :=
      braceFreeTree_of_findall hp (hlrs ▸ List.mem_cons_self lr0 rest)
    rw [coordsOfEl_addNs hu h0, List.filterMap_map]
    have : rest.filterMap (fun x => lrHole? (XElem.addNs u x)) = rest.filterMap lrHole? := by
      refine List.filterMap_congr ?_
      intro lr hlr
      exact lrHole?_addNs hu
        (braceFreeTree_of_findall hp (hlrs ▸ List.mem_cons_of_mem lr0 hlr))
    rw [show ((fun x => lrHole? (XElem.addNs u x)) = (lrHole? ∘ XElem.addNs u)) from rfl] at this
    rw [this]

theorem polygonParts_addNs {u : String} {pe : XElem}
    (hu : braceFreeStr u = true) (hp : braceFreeTree pe = true) :
    polygonParts (XElem.addNs u pe) = polygonParts pe := by
  unfold polygonParts
  rw [outerFromBoundary_addNs hu hp, innerHoles_addNs hu hp]
  cases outerFromBoundary pe with
  | nil => rw [fallbackParts_addNs _ hu hp]
  | cons c cs => rfl

theorem polygonGeom?_addNs {u : String} {pe : XElem}
    (hu : braceFreeStr u = true) (hp : braceFreeTree pe = true) :
    polygonGeom? (XElem.addNs u pe) = polygonGeom? pe := by
  unfold polygonGeom?
  rw [polygonParts_addNs hu hp]

theorem geometry_from_placemark_addNs {u : String} {pm : XElem}
    (hu : braceFreeStr u = true) (hp : braceFreeTree pm = true) :
    geometry_from_placemark (XElem.addNs u pm) = geometry_from_placemark pm := by
  unfold geometry_from_placemark
  rw [findall_local_addNs _ hu hp, findall_local_addNs _ hu hp,
    findall_local_addNs _ hu hp, List.filterMap_map, List.filterMap_map,
    List.filterMap_map]
  have h1 : (findall_local pm "Point").filterMap (pointGeom? ∘ XElem.addNs u)
      = (findall_local pm "Point").filterMap pointGeom? :=
    List.filterMap_congr (fun p hp2 => pointGeom?_addNs hu (braceFreeTree_of_findall hp hp2))
  have h2 : (findall_local pm "LineString").filterMap (lineGeom? ∘ XElem.addNs u)
      = (findall_local pm "LineString").filterMap lineGeom? :=
    List.filterMap_congr (fun p hp2 => lineGeom?_addNs hu (braceFreeTree_of_findall hp hp2))
  have h3 : (findall_local pm "Polygon").filterMap (polygonGeom? ∘ XElem.addNs u)
      = (findall_local pm "Polygon").filterMap polygonGeom? :=
    List.filterMap_congr (fun p hp2 => polygonGeom?_addNs hu (braceFreeTree_of_findall hp hp2))
  rw [h1, h2, h3]

theorem firstLocalText_addNs {u : String} (nm : String) {pm : XElem}
    (hu : braceFreeStr u = true) (hp : braceFreeTree pm = true) :
    firstLocalText (XElem.addNs u pm) nm = firstLocalText pm nm := by
  unfold firstLocalText
  rw [find_first_local_addNs _ hu hp]
  cases find_first_local pm nm with
  | none => rfl
  | some e => rfl

theorem placemarkRecord_addNs {u : String} {pm : XElem}
    (hu : braceFreeStr u = true) (hp : braceFreeTree pm = true) :
    placemarkRecord (XElem.addNs u pm) = placemarkRecord pm := by
  unfold placemarkRecord
  rw [firstLocalText_addNs _ hu hp, firstLocalText_addNs _ hu hp,
    geometry_from_placemark_addNs hu hp]

theorem extract_placemarks_addNs {u : String} {root : XElem}
    (hu : braceFreeStr u = true) (hr : braceFreeTree root = true) :
    extract_placemarks (XElem.addNs u root) = extract_placemarks root := by
  unfold extract_placemarks
  rw [findall_local_addNs _ hu hr, List.map_map]
  refine List.map_congr_left ?_
  intro pm hpm
  exact placemarkRecord_addNs hu (braceFreeTree_of_findall hr hpm)

theorem utf8ReplaceAux_of_strictAux :
    ∀ (bs : List Nat) (pending : Option (Nat × Nat × Nat)) (acc out : List Char),
      utf8DecodeStrictAux pending acc bs = some out →
      utf8DecodeReplaceAux pending acc bs = out := by
  intro bs
  induction bs with
  | nil =>
    intro pending acc out h
    cases pending with
    | none =>
      simp only [utf8DecodeStrictAux, Option.some.injEq] at h
      simp only [utf8DecodeReplaceAux, h]
    | some st =>
      simp only [utf8DecodeStrictAux] at h
      exact Option.noConfusion h
  | cons b bs ih =>
    intro pending acc out h
    cases pending with
    | none =>
      simp only [utf8DecodeStrictAux] at h
      simp only [utf8DecodeReplaceAux]
      split_ifs at h ⊢
      all_goals exact ih _ _ _ h
    | some st =>
      obtain ⟨need, val, lo⟩ := st
      simp only [utf8DecodeStrictAux] at h
      simp only [utf8DecodeReplaceAux]
      split_ifs at h ⊢
      all_goals exact ih _ _ _ h

theorem utf8DecodeReplace_of_strict {bs : List Nat} {s : String}
    (h : utf8DecodeStrict bs = some s) : utf8DecodeReplace bs = s := by
  unfold utf8DecodeStrict at h
  cases hraw : utf8DecodeStrictAux none [] bs with
  | none => rw [hraw] at h; simp at h
  | some out =>
    rw [hraw] at h
    simp only [Option.map_some', Option.some.injEq] at h
    unfold utf8DecodeReplace
    rw [utf8ReplaceAux_of_strictAux bs none [] out hraw, h]

theorem univNewlines_of_crFree :
    ∀ {l : List Char}, l.all (fun c => c != Char.ofNat 13) = true →
      univNewlines l = l := by
  intro l
  induction l with
  | nil => intro _; rfl
  | cons c cs ih =>
    intro h
    simp only [List.all_cons, Bool.and_eq_true] at h
    obtain ⟨h1, h2⟩ := h
    have hc : ¬((c == Char.ofNat 13) = true) := by simpa using h1
    rw [univNewlines.eq_def]
    simp only []
    rw [if_neg hc, ih h2]

theorem pairwise_le_append3 {A B C : List Nat}
    (hA : ∀ a ∈ A, a = 0) (hB : ∀ b ∈ B, b = 1) (hC : ∀ c ∈ C, c = 2) :
    (A ++ B ++ C).Pairwise (· ≤ ·) := by
  rw [List.pairwise_append]
  refine ⟨?_, ?_, ?_⟩
  · rw [List.pairwise_append]
    refine ⟨?_, ?_, ?_⟩
    · exact List.pairwise_of_forall_mem_list
        (fun a ha b hb => by rw [hA a ha, hA b hb])
    · exact List.pairwise_of_forall_mem_list
        (fun a ha b hb => by rw [hB a ha, hB b hb])
    · intro a ha b hb
      rw [hA a ha, hB b hb]
      omega
  · exact List.pairwise_of_forall_mem_list
      (fun a ha b hb => by rw [hC a ha, hC b hb])
  · intro a ha b hb
    rw [hC b hb]
    rcases List.mem_append.mp ha with h | h
    · rw [hA a h]; omega
    · rw [hB a h]; omega

theorem pointGeom?_kind {p : XElem} {g : Geometry} (h : pointGeom? p = some g) :
    geomKind g = 0 := by
  unfold pointGeom? at h
  cases hc : coordsOfEl p with
  | nil => rw [hc] at h; exact Option.noConfusion h
  | cons c cs =>
    rw [hc] at h
    cases h
    rfl

theorem lineGeom?_kind {p : XElem} {g : Geometry} (h : lineGeom? p = some g) :
    geomKind g = 1 := by
  unfold lineGeom? at h
  cases hc : coordsOfEl p with
  | nil => rw [hc] at h; exact Option.noConfusion h
  | cons c cs =>
    rw [hc] at h
    cases h
    rfl

theorem polygonGeom?_kind {p : XElem} {g : Geometry} (h : polygonGeom? p = some g) :
    geomKind g = 2 := by
  unfold polygonGeom? at h
  rcases hp : polygonParts p with ⟨o, hs⟩
  rw [hp] at h
  cases o with
  | nil => exact Option.noConfusion h
  | cons c cs =>
    cases h
    rfl

/-- Claim C1 (counterexample): in `pmC1` the `Polygon` element occurs before
the `Point` element in document order, yet `geometry_from_placemark` lists the
Point geometry (kind 0) before the Polygon geometry (kind 2): geometry order
does not mirror document discovery order. -/
theorem c1_geometry_order_counterexample :
    (pmC1.iter.map XElem.tag).filter (fun t => t == "Point" || t == "Polygon")
      = ["Polygon", "Point"]
    ∧ (geometry_from_placemark pmC1).map geomKind = [0, 2] := by
  exact ⟨by decide, by decide⟩

/-- Claim C1 (amended): the geometries of a placemark are grouped by kind —
all Points first (kind 0), then all LineStrings (kind 1), then all Polygons
(kind 2) — and within each kind they follow the document order of the
corresponding elements (`findall_local` order). -/
theorem c1_geometries_grouped_by_kind (pm : XElem) :
    ((geometry_from_placemark pm).map geomKind).Pairwise (· ≤ ·)
    ∧ (geometry_from_placemark pm).filter (fun g => geomKind g == 0)
        = (findall_local pm "Point").filterMap pointGeom?
    ∧ (geometry_from_placemark pm).filter (fun g => geomKind g == 1)
        = (findall_local pm "LineString").filterMap lineGeom?
    ∧ (geometry_from_placemark pm).filter (fun g => geomKind g == 2)
        = (findall_local pm "Polygon").filterMap polygonGeom? := by
  have hp : ∀ g ∈ (findall_local pm "Point").filterMap pointGeom?, geomKind g = 0 := by
    intro g hg
    obtain ⟨p, _, hsome⟩ := List.mem_filterMap.mp hg
    exact pointGeom?_kind hsome
  have hl : ∀ g ∈ (findall_local pm "LineString").filterMap lineGeom?, geomKind g = 1 := by
    intro g hg
    obtain ⟨p, _, hsome⟩ := List.mem_filterMap.mp hg
    exact lineGeom?_kind hsome
  have hq : ∀ g ∈ (findall_local pm "Polygon").filterMap polygonGeom?, geomKind g = 2 := by
    intro g hg
    obtain ⟨p, _, hsome⟩ := List.mem_filterMap.mp hg
    exact polygonGeom?_kind hsome
  refine ⟨?_, ?_, ?_, ?_⟩
  · unfold geometry_from_placemark
    rw [List.map_append, List.map_append]
    refine pairwise_le_append3 ?_ ?_ ?_
    · intro a ha
      obtain ⟨ga, hga, rfl⟩ := List.mem_map.mp ha
      exact hp ga hga
    · intro a ha
      obtain ⟨ga, hga, rfl⟩ := List.mem_map.mp ha
      exact hl ga hga
    · intro a ha
      obtain ⟨ga, hga, rfl⟩ := List.mem_map.mp ha
      exact hq ga hga
  · unfold geometry_from_placemark
    rw [List.filter_append, List.filter_append]
    rw [List.filter_eq_self.mpr (by intro a ha; simp [hp a ha]),
      List.filter_eq_nil_iff.mpr (by intro a ha; simp [hl a ha]),
      List.filter_eq_nil_iff.mpr (by intro a ha; simp [hq a ha])]
    simp
  · unfold geometry_from_placemark
    rw [List.filter_append, List.filter_append]
    rw [List.filter_eq_nil_iff.mpr (by intro a ha; simp [hp a ha]),
      List.filter_eq_self.mpr (by intro a ha; simp [hl a ha]),
      List.filter_eq_nil_iff.mpr (by intro a ha; simp [hq a ha])]
    simp
  · unfold geometry_from_placemark
    rw [List.filter_append, List.filter_append]
    rw [List.filter_eq_nil_iff.mpr (by intro a ha; simp [hp a ha]),
      List.filter_eq_nil_iff.mpr (by intro a ha; simp [hl a ha]),
      List.filter_eq_self.mpr (by intro a ha; simp [hq a ha])]
    simp

/-- Claim C2: for every parsed document, `extract_placemarks` returns exactly
one record per `Placemark` element, and the record at any index is the record
built from the `Placemark` element at the same index of the document-order
listing. -/
theorem c2_count_and_order_preserved (root : XElem) :
    (extract_placemarks root).length = (findall_local root "Placemark").length
    ∧ ∀ i : Nat, (extract_placemarks root)[i]?
        = ((findall_local root "Placemark")[i]?).map placemarkRecord := by
  unfold extract_placemarks
  exact ⟨List.length_map _ _, fun i => List.getElem?_map _ _ i⟩

/-- Claim C7: a parse failure of the XML text propagates out of
`extract_placemarks` unchanged — no records are produced and the error is not
recovered — while a successful parse yields exactly the extracted records. -/
theorem c7_parse_error_propagates :
    (∀ err : XmlParseError, extract_placemarks_from_text (.error err) = .error err)
    ∧ ∀ root : XElem, extract_placemarks_from_text (.ok root)
        = .ok (extract_placemarks root) :=
  ⟨fun _ => rfl, fun _ => rfl⟩

/-- Claim C5 (counterexample): the single placemark of `rootC5x` has a name
element whose text is whitespace only, and the extracted record's name is the
present empty string, not an absent name. -/
theorem c5_whitespace_name_counterexample :
    (extract_placemarks rootC5x).map Placemark.name = [some ""]
    ∧ (extract_placemarks rootC5x).map Placemark.name ≠ [none] := by
  exact ⟨by decide, by decide⟩

/-- Claim C9 (counterexample): a non-archive input whose raw bytes are not
valid UTF-8 makes `read_kml_from_path` fail with a decode error — the raw
path is decoded strictly, not with the replacement policy. -/
theorem c9_strict_raw_decode_counterexample :
    read_kml_from_path pcC9x = .error .decodeError := by
  rfl

/-- Claim C10 (counterexample): in `peC10x` the outer boundary is resolved by
the bare-`LinearRing` fallback (the `outerBoundaryIs` pass produced nothing),
the only `LinearRing` sits inside an `innerBoundaryIs` wrapper and parses
non-empty, yet it appears exactly once in the emitted holes (as well as being
promoted to the outer ring), not twice. -/
theorem c10_single_hole_counterexample :
    outerFromBoundary peC10x = []
    ∧ polygonGeom? peC10x = some (.polygon ringC10 [ringC10])
    ∧ ((polygonParts peC10x).2).count ringC10 = 1 := by
  exact ⟨by decide, by decide, by decide⟩

/-- Claim C3: coordinate parsing splits the (stripped, newline-normalised)
text on whitespace and each token on commas; `"77.5,12.9,10"` parses to
`(77.5, 12.9, 10)`, `"77.5,12.9"` to `(77.5, 12.9, none)`, `"bad,token"` is
dropped; a token with fewer than two comma components is dropped, a token
whose first two components do not parse as numbers is dropped, and a
non-empty third component that fails to parse drops the whole token. -/
theorem c3_coordinate_token_policy :
    parse_coordinates_text (some "77.5,12.9,10") = [(77.5, 12.9, some 10)]
    ∧ parse_coordinates_text (some "77.5,12.9") = [(77.5, 12.9, none)]
    ∧ parse_coordinates_text (some "bad,token") = []
    ∧ (∀ s : String, parse_coordinates_text (some s)
        = (wsTokens ((pyStrip s.data).map nlToSpace)).flatMap parseToken)
    ∧ (∀ tok : List Char, (splitOnComma tok).length < 2 → parseToken tok = [])
    ∧ (∀ tok c0 c1 rest, splitOnComma tok = c0 :: c1 :: rest →
        parseFloat? c0 = none ∨ parseFloat? c1 = none → parseToken tok = [])
    ∧ (∀ tok c0 c1 c2 rest, splitOnComma tok = c0 :: c1 :: c2 :: rest →
        c2 ≠ [] → parseFloat? c2 = none → parseToken tok = []) := by
  refine ⟨?_, ?_, ?_, ?_, ?_, ?_, ?_⟩
  · have h : parse_coordinates_text (some "77.5,12.9,10")
        = [(mkRat 775 10, mkRat 129 10, some (mkRat 10 1))] := by decide
    rw [h]
    norm_num [Rat.mkRat_eq_div]
  · have h : parse_coordinates_text (some "77.5,12.9")
        = [(mkRat 775 10, mkRat 129 10, none)] := by decide
    rw [h]
    norm_num [Rat.mkRat_eq_div]
  · decide
  · intro s
    simp only [parse_coordinates_text]
    by_cases h : pyStrip s.data == []
    · rw [if_pos h]
      have h2 : pyStrip s.data = [] := by simpa using h
      rw [h2]
      rfl
    · rw [if_neg h]
  · intro tok hlen
    cases hs : splitOnComma tok with
    | nil => simp [parseToken, hs]
    | cons c0 r =>
      cases r with
      | nil => simp [parseToken, hs]
      | cons c1 r2 =>
        rw [hs] at hlen
        simp at hlen
        omega
  · intro tok c0 c1 rest hs hf
    rcases hf with h | h
    · cases hc1 : parseFloat? c1 <;> simp [parseToken, hs, h, hc1]
    · cases hc0 : parseFloat? c0 <;> simp [parseToken, hs, h, hc0]
  · intro tok c0 c1 c2 rest hs hne hf
    cases hc0 : parseFloat? c0 <;> cases hc1 : parseFloat? c1 <;>
      simp [parseToken, hs, hc0, hc1, hf, hne]

/-- Claim C3 (witness): the token-dropping rules applied at the concrete
token `"7,x"`, whose second component does not parse as a number. -/
theorem c3_coordinate_token_policy_witness :
    splitOnComma "7,x".data = [['7'], ['x']]
    ∧ parseFloat? ['x'] = none
    ∧ parseToken "7,x".data = [] :=
  ⟨by decide, by decide,
    c3_coordinate_token_policy.2.2.2.2.2.1 "7,x".data ['7'] ['x'] []
      (by decide) (Or.inr (by decide))⟩

/-- Claim C4: a Polygon geometry is emitted for a polygon element exactly when
the resolved outer ring (explicit `outerBoundaryIs` path, or the
bare-`LinearRing` fallback) is non-empty; an unresolved outer ring drops the
whole polygon regardless of collected holes; and a polygon whose outer ring
comes from `outerBoundaryIs` with no `innerBoundaryIs` element is emitted with
an empty holes list. -/
theorem c4_polygon_emission_policy (pe : XElem) :
    ((polygonGeom? pe).isSome = true ↔ (polygonParts pe).1 ≠ [])
    ∧ ((polygonParts pe).1 ≠ [] ↔
        (outerFromBoundary pe ≠ [] ∨
          ∃ lr rest, findall_local pe "LinearRing" = lr :: rest ∧ coordsOfEl lr ≠ []))
    ∧ (∀ g, polygonGeom? pe = some g →
        g = .polygon (polygonParts pe).1 (polygonParts pe).2 ∧ (polygonParts pe).1 ≠ [])
    ∧ (outerFromBoundary pe ≠ [] → findall_local pe "innerBoundaryIs" = [] →
        polygonGeom? pe = some (.polygon (outerFromBoundary pe) [])) := by
  refine ⟨?_, ?_, ?_, ?_⟩
  · rcases hpp : polygonParts pe with ⟨o, hs⟩
    cases o <;> simp [polygonGeom?, hpp]
  · cases hofb : outerFromBoundary pe with
    | cons c cs =>
      have h1 : (polygonParts pe).1 = c :: cs := by
        unfold polygonParts
        rw [hofb]
      rw [h1]
      simp
    | nil =>
      have h1 : polygonParts pe
          = fallbackParts pe ((findall_local pe "innerBoundaryIs").filterMap innerHole?) := by
        unfold polygonParts
        rw [hofb]
      rw [h1]
      simp only [ne_eq, not_true_eq_false, false_or]
      cases hlrs : findall_local pe "LinearRing" with
      | nil =>
        have h2 : (fallbackParts pe
            ((findall_local pe "innerBoundaryIs").filterMap innerHole?)).1 = [] := by
          simp only [fallbackParts, hlrs]
        rw [h2]
        simp
      | cons lr0 rest =>
        cases hcc : coordsOfEl lr0 with
        | nil =>
          have h2 : (fallbackParts pe
              ((findall_local pe "innerBoundaryIs").filterMap innerHole?)).1 = [] := by
            simp only [fallbackParts, hlrs, hcc]
          rw [h2]
          simp only [ne_eq, not_true_eq_false, false_iff, not_exists]
          intro lr rest2 hpair
          obtain ⟨hcons, hne⟩ := hpair
          injection hcons with h3 h4
          subst h3
          exact hne hcc
        | cons c cs =>
          have h2 : (fallbackParts pe
              ((findall_local pe "innerBoundaryIs").filterMap innerHole?)).1
              = (c :: cs).map mkPCoord := by
            simp only [fallbackParts, hlrs, hcc]
          rw [h2]
          refine ⟨fun _ => ⟨lr0, rest, rfl, ?_⟩, fun _ => by simp⟩
          rw [hcc]
          simp
  · intro g hg
    rcases hpp : polygonParts pe with ⟨o, hs⟩
    cases o with
    | nil => simp [polygonGeom?, hpp] at hg
    | cons c cs =>
      simp only [polygonGeom?, hpp] at hg
      cases hg
      exact ⟨by simp, by simp⟩
  · intro hofb hinner
    cases h : outerFromBoundary pe with
    | nil => exact absurd h hofb
    | cons c cs =>
      simp [polygonGeom?, polygonParts, h, hinner]

/-- Claim C4 (witness): the concrete polygon `peC4w`, with an
`outerBoundaryIs` only and no `innerBoundaryIs`, is emitted with an empty
holes list. -/
theorem c4_polygon_emission_policy_witness :
    outerFromBoundary peC4w ≠ []
    ∧ findall_local peC4w "innerBoundaryIs" = []
    ∧ polygonGeom? peC4w = some (.polygon (outerFromBoundary peC4w) []) :=
  ⟨by decide, by decide,
    (c4_polygon_emission_policy peC4w).2.2.2 (by decide) (by decide)⟩

/-- Claim C5 (amended): the name (and likewise description) field of a record
is the value of `firstLocalText`; that value is absent exactly when the first
descendant with the local name is missing, or its text is `None`, or its text
is the empty string — the emptiness test happens before trimming — and
otherwise it is the trimmed text, which is the (present) empty string when the
text was whitespace only. -/
theorem c5_name_field_policy :
    (∀ root, (extract_placemarks root).map Placemark.name
        = (findall_local root "Placemark").map (fun pm => firstLocalText pm "name"))
    ∧ (∀ root, (extract_placemarks root).map Placemark.description
        = (findall_local root "Placemark").map (fun pm => firstLocalText pm "description"))
    ∧ (∀ pm nm, find_first_local pm nm = none → firstLocalText pm nm = none)
    ∧ (∀ pm nm e, find_first_local pm nm = some e → e.text = none →
        firstLocalText pm nm = none)
    ∧ (∀ pm nm e, find_first_local pm nm = some e → e.text = some "" →
        firstLocalText pm nm = none)
    ∧ (∀ pm nm e t, find_first_local pm nm = some e → e.text = some t →
        t.data ≠ [] → firstLocalText pm nm = some (String.mk (pyStrip t.data))) := by
  refine ⟨?_, ?_, ?_, ?_, ?_, ?_⟩
  · intro root
    unfold extract_placemarks
    rw [List.map_map]
    rfl
  · intro root
    unfold extract_placemarks
    rw [List.map_map]
    rfl
  · intro pm nm h
    simp [firstLocalText, h]
  · intro pm nm e h ht
    simp [firstLocalText, h, ht]
  · intro pm nm e h ht
    simp [firstLocalText, h, ht]
  · intro pm nm e t h ht hne
    simp [firstLocalText, h, ht, hne]

/-- Claim C5 (witness): the concrete placemark `pmC5w` whose name element has
text with surrounding whitespace yields the trimmed name. -/
theorem c5_name_field_policy_witness :
    find_first_local pmC5w "name" = some nameElC5
    ∧ nameElC5.text = some "  hi  "
    ∧ firstLocalText pmC5w "name" = some (String.mk (pyStrip "  hi  ".data)) :=
  ⟨by decide, by decide,
    c5_name_field_policy.2.2.2.2.2 pmC5w "name" nameElC5 "  hi  "
      (by decide) (by decide) (by decide)⟩

/-- Claim C6: element matching is by namespace-stripped local name, so
re-parsing the same document wrapped in a default namespace (every tag becomes
`\x7buri\x7dlocal`) yields exactly the same extraction result, and the same
matched element lists, as the namespace-free document — for any document and
URI free of the closing-brace character. -/
theorem c6_namespace_invariance (root : XElem) (u : String)
    (hu : braceFreeStr u = true) (hr : braceFreeTree root = true) :
    extract_placemarks (XElem.addNs u root) = extract_placemarks root
    ∧ ∀ nm, findall_local (XElem.addNs u root) nm
        = (findall_local root nm).map (XElem.addNs u) :=
  ⟨extract_placemarks_addNs hu hr, fun nm => findall_local_addNs nm hu hr⟩

/-- Claim C6 (witness): the concrete document `docC6` wrapped in the standard
KML namespace extracts identically to the namespace-free document. -/
theorem c6_namespace_invariance_witness :
    braceFreeStr uriC6 = true
    ∧ braceFreeTree docC6 = true
    ∧ extract_placemarks (XElem.addNs uriC6 docC6) = extract_placemarks docC6 :=
  ⟨by decide, by decide,
    (c6_namespace_invariance docC6 uriC6 (by decide) (by decide)).1⟩

/-- Claim C8 (counterexample): the archive `pcC8x` holds one entry `doc.kml`
whose bytes decode to `a`-CR-LF-`b`; the KMZ path preserves the carriage
return, while reading the same bytes as a raw `.kml` file translates CRLF to
LF, so the archive result differs from the raw-read result of the entry's
text — the claimed equality is false for entries with CRLF line endings. -/
theorem c8_crlf_counterexample :
    read_kml_from_path pcC8x = .ok "a\r\nb"
    ∧ read_kml_from_path { path := "doc.kml", entries := [], raw := [97, 13, 10, 98] }
        = .ok "a\nb"
    ∧ ("a\r\nb" : String) ≠ "a\nb" :=
  ⟨rfl, rfl, by decide⟩

/-- Claim C8 (amended): for an input whose filename ends in `.kmz`
(case-insensitive): with no `.kml`-suffixed entry (case-insensitive) in the
archive the reader fails with the distinct empty-archive error; otherwise the
first matching entry's bytes are decoded (with the replacement policy and no
newline translation), while reading the same bytes as a raw `.kml` file
additionally applies universal-newline translation after decoding — so for
bytes that decode strictly to `s`, the archive path returns `s`, the raw path
returns `s` with universal newlines applied, and the two coincide exactly
when `s` is carriage-return free. -/
theorem c8_kmz_reading (pc : PathContent)
    (hk : pyEndsWith (lowerStr pc.path) ".kmz" = true) :
    (pc.entries.filter (fun en => pyEndsWith (lowerStr en.1) ".kml") = [] →
      read_kml_from_path pc = .error .emptyArchive)
    ∧ (∀ nm bs rest s,
        pc.entries.filter (fun en => pyEndsWith (lowerStr en.1) ".kml")
          = (nm, bs) :: rest →
        utf8DecodeStrict bs = some s →
        read_kml_from_path pc = .ok s
        ∧ (∀ pc2 : PathContent, pc2.path = "doc.kml" → pc2.raw = bs →
            read_kml_from_path pc2 = .ok (String.mk (univNewlines s.data)))
        ∧ (s.data.all (fun c => c != Char.ofNat 13) = true →
            ∀ pc2 : PathContent, pc2.path = "doc.kml" → pc2.raw = bs →
              read_kml_from_path pc2 = .ok s)) := by
  constructor
  · intro hempty
    unfold read_kml_from_path
    rw [if_pos hk, hempty]
  · intro nm bs rest s hfilter hdec
    have hraw2 : ∀ pc2 : PathContent, pc2.path = "doc.kml" → pc2.raw = bs →
        read_kml_from_path pc2 = .ok (String.mk (univNewlines s.data)) := by
      intro pc2 hpath hraw
      unfold read_kml_from_path
      rw [hpath, hraw, hdec]
      rw [if_neg (by decide)]
    refine ⟨?_, hraw2, ?_⟩
    · unfold read_kml_from_path
      rw [if_pos hk, hfilter]
      show Except.ok (utf8DecodeReplace bs) = Except.ok s
      rw [utf8DecodeReplace_of_strict hdec]
    · intro hcr pc2 hpath hraw
      have h2 := hraw2 pc2 hpath hraw
      rw [univNewlines_of_crFree hcr] at h2
      have h3 : String.mk s.data = s := rfl
      rw [h3] at h2
      exact h2

/-- Claim C8 (witness): the concrete archive `pcC8w` (one non-document entry,
then an upper-case `DOC.KML` entry holding ASCII `hi`, a carriage-return-free
text) reads as `hi`, exactly as raw-reading those bytes does. -/
theorem c8_kmz_reading_witness :
    pyEndsWith (lowerStr pcC8w.path) ".kmz" = true
    ∧ pcC8w.entries.filter (fun en => pyEndsWith (lowerStr en.1) ".kml")
        = [("DOC.KML", [104, 105])]
    ∧ utf8DecodeStrict [104, 105] = some "hi"
    ∧ ("hi" : String).data.all (fun c => c != Char.ofNat 13) = true
    ∧ read_kml_from_path pcC8w = .ok "hi"
    ∧ read_kml_from_path { path := "doc.kml", entries := [], raw := [104, 105] }
        = .ok "hi" := by
  refine ⟨by decide, by decide, by decide, by decide, ?_, ?_⟩
  · exact ((c8_kmz_reading pcC8w (by decide)).2 "DOC.KML" [104, 105] [] "hi"
      (by decide) (by decide)).1
  · exact ((c8_kmz_reading pcC8w (by decide)).2 "DOC.KML" [104, 105] [] "hi"
      (by decide) (by decide)).2.2 (by decide) _ rfl rfl

/-- Claim C9 (amended): only archive entries are decoded with the
replacement policy; a non-archive input is decoded as strict UTF-8 (and the
decoded text gets text-mode universal-newline translation), so it succeeds
exactly on valid UTF-8 bytes and fails with a decode error on invalid ones,
while the archive path can never fail with a decode error. -/
theorem c9_raw_decode_policy (pc : PathContent)
    (hnk : pyEndsWith (lowerStr pc.path) ".kmz" = false) :
    (∀ s, utf8DecodeStrict pc.raw = some s →
      read_kml_from_path pc = .ok (String.mk (univNewlines s.data)))
    ∧ (utf8DecodeStrict pc.raw = none → read_kml_from_path pc = .error .decodeError)
    ∧ (∀ pc2 : PathContent, pyEndsWith (lowerStr pc2.path) ".kmz" = true →
        read_kml_from_path pc2 ≠ .error .decodeError) := by
  refine ⟨?_, ?_, ?_⟩
  · intro s h
    unfold read_kml_from_path
    rw [if_neg (by simp [hnk]), h]
  · intro h
    unfold read_kml_from_path
    rw [if_neg (by simp [hnk]), h]
  · intro pc2 hk2
    unfold read_kml_from_path
    rw [if_pos hk2]
    cases pc2.entries.filter (fun en => pyEndsWith (lowerStr en.1) ".kml") with
    | nil => simp
    | cons en rest => simp

/-- Claim C9 (witness): the concrete raw file `pcC9w` with valid UTF-8 bytes
reads successfully under the strict policy. -/
theorem c9_raw_decode_policy_witness :
    pyEndsWith (lowerStr pcC9w.path) ".kmz" = false
    ∧ utf8DecodeStrict pcC9w.raw = some "hi"
    ∧ read_kml_from_path pcC9w = .ok "hi" :=
  ⟨by decide, by decide,
    (c9_raw_decode_policy pcC9w (by decide)).1 "hi" (by decide)⟩

/-- Claim C10 (amended): when the outer boundary is resolved by the
bare-`LinearRing` fallback, every `innerBoundaryIs`-wrapped ring with
non-empty parsed coordinates that is NOT the polygon's first `LinearRing`
descendant is collected twice — once by the explicit `innerBoundaryIs` pass
and once by the fallback scan over the subsequent rings — so its coordinates
occur at least twice in the holes list (the first `LinearRing` descendant is
instead promoted to the outer ring and contributes only its explicit-pass
hole). -/
theorem c10_duplicate_holes (pe lr0 lr : XElem) (rest : List XElem)
    (cs : List CoordT)
    (hout : outerFromBoundary pe = [])
    (hlrs : findall_local pe "LinearRing" = lr0 :: rest)
    (hmem : lr ∈ rest)
    (hinner : ∃ ib ∈ findall_local pe "innerBoundaryIs",
        find_first_local ib "LinearRing" = some lr)
    (hcs : coordsOfEl lr = cs) (hne : cs ≠ []) :
    2 ≤ ((polygonParts pe).2).count (cs.map mkPCoord) := by
  obtain ⟨c, cs2, rfl⟩ : ∃ c cs2, cs = c :: cs2 := by
    cases cs with
    | nil => exact absurd rfl hne
    | cons c cs2 => exact ⟨c, cs2, rfl⟩
  have hparts : (polygonParts pe).2
      = (findall_local pe "innerBoundaryIs").filterMap innerHole?
        ++ rest.filterMap lrHole? := by
    unfold polygonParts
    rw [hout]
    simp only [fallbackParts, hlrs]
  have hin : (c :: cs2).map mkPCoord
      ∈ (findall_local pe "innerBoundaryIs").filterMap innerHole? := by
    obtain ⟨ib, hibmem, hibfind⟩ := hinner
    refine List.mem_filterMap.mpr ⟨ib, hibmem, ?_⟩
    simp only [innerHole?, hibfind, hcs]
  have hfb : (c :: cs2).map mkPCoord ∈ rest.filterMap lrHole? := by
    refine List.mem_filterMap.mpr ⟨lr, hmem, ?_⟩
    simp only [lrHole?, hcs]
  rw [hparts, List.count_append]
  have h1 := List.count_pos_iff.mpr hin
  have h2 := List.count_pos_iff.mpr hfb
  omega

/-- Claim C10 (witness): in the concrete polygon `peC10w` (a bare ring first,
then an `innerBoundaryIs`-wrapped ring), the wrapped ring's coordinates occur
at least twice among the holes. -/
theorem c10_duplicate_holes_witness :
    outerFromBoundary peC10w = []
    ∧ findall_local peC10w "LinearRing" = [lr0w, lrw]
    ∧ 2 ≤ ((polygonParts peC10w).2).count (coordsC10v.map mkPCoord) :=
  ⟨by decide, by decide,
    c10_duplicate_holes peC10w lr0w lrw [lrw] coordsC10v (by decide) (by decide)
      (by decide) ⟨ibw, by decide, by decide⟩ (by decide) (by decide)⟩
